import Mathlib

/-!
# DepartureTime: the markup-extraction pipeline of `main.go`

A shallow embedding of the pure part of `src/main.go`: the minute-value
normaliser (`getMinuteValue` followed by `strconv.Atoi`), the record builder
(`createTerminalRecords`), the marker locator (`getSecurityTimesNode`), the
sibling text harvester (`getRawText`, `getStrongTagNode`) and the part of one
poll cycle of `main` that chains them.

Conventions of the embedding.

* A Go `string` is a Lean `String`; the library functions on strings work on
  its sequence of code points.  The patterns the program passes to
  `strings.ReplaceAll` are ASCII, for which replacing on the UTF-8 bytes and on
  the code points of a well-formed string give the same result.
* Go's `int` has `intSize` bits (`strconv.IntSize`, 32 or 64 depending on the
  platform); `intSize` is an explicit argument and values are Lean integers
  checked against the range of an `intSize`-bit signed integer.
* A run-time panic and the ways `main` stops a run are explicit results
  (`Stop`), so a function that can panic returns `Except Stop _`.
* Logging has no influence on the results and is left out, except that the
  arguments of a log call are still evaluated (they can panic).
-/

namespace DepartureTime

/-! ## Go library: `strings.ReplaceAll`, `strings.TrimSpace`, `strconv.Atoi` -/

/-- The scan of `strings.Replace` for a non-empty `old`: matches are taken
leftmost first and do not overlap.  `skip` counts the characters of the match
just replaced that are still to be passed over. -/
def replaceScan (old new : List Char) : Nat → List Char → List Char
  | _, [] => []
  | skip + 1, _ :: s => replaceScan old new skip s
  | 0, c :: s =>
    if old.isPrefixOf (c :: s) then new ++ replaceScan old new (old.length - 1) s
    else c :: replaceScan old new 0 s

/-- Go `strings.ReplaceAll(s, old, new)`.  With an empty `old` Go puts `new`
before every code point and at the end of the string. -/
def ReplaceAll (s old new : String) : String :=
  if old = new then s
  else if old.data = [] then ⟨new.data ++ s.data.flatMap (fun c => c :: new.data)⟩
  else ⟨replaceScan old.data new.data 0 s.data⟩

/-- Go `unicode.IsSpace`: the code points with the Unicode White_Space
property. -/
def isSpace (c : Char) : Bool :=
  c = '\t' || c = '\n' || c.toNat = 0x0B || c.toNat = 0x0C || c = '\r' || c = ' '
    || c.toNat = 0x85 || c.toNat = 0xA0 || c.toNat = 0x1680
    || (0x2000 ≤ c.toNat && c.toNat ≤ 0x200A)
    || c.toNat = 0x2028 || c.toNat = 0x2029 || c.toNat = 0x202F
    || c.toNat = 0x205F || c.toNat = 0x3000

/-- Go `strings.TrimSpace`: the string without its leading and trailing white
space. -/
def TrimSpace (s : String) : String :=
  ⟨((s.data.dropWhile isSpace).reverse.dropWhile isSpace).reverse⟩

/-- An ASCII decimal digit, as tested by `strconv` (`'0' <= c && c <= '9'`). -/
def isDecimalDigit (c : Char) : Bool :=
  48 ≤ c.toNat && c.toNat ≤ 57

/-- The number a string of decimal digits denotes (`n = n*10 + int(ch - '0')`). -/
def digitsValue (s : List Char) : Nat :=
  s.foldl (fun n ch => n * 10 + (ch.toNat - 48)) 0

/-- The unsigned part of `strconv.ParseInt(s, 10, _)`: at least one character,
all of them decimal digits; `none` is Go's `ErrSyntax`. -/
def parseDecimal (s : List Char) : Option Nat :=
  match s with
  | [] => none
  | _ :: _ => if s.all isDecimalDigit then some (digitsValue s) else none

/-- Go `strconv.Atoi(s)` for an `int` of `intSize` bits: an optional sign
followed by decimal digits, whose value fits the signed range.  `none` stands
for a non-nil `err` (`ErrSyntax` or `ErrRange`); the program only tests
`err != nil`. -/
def Atoi (intSize : Nat) (s : String) : Option Int :=
  match s.data with
  | [] => none
  | c :: rest =>
    let digits := if c = '+' ∨ c = '-' then rest else c :: rest
    match parseDecimal digits with
    | none => none
    | some un =>
      if c = '-' then
        if un ≤ 2 ^ (intSize - 1) then some (-(un : Int)) else none
      else
        if un < 2 ^ (intSize - 1) then some (un : Int) else none

/-! ## `main.go`: the normaliser and the record builder -/

/-- A `time.Time` instant; the program only copies it into the records. -/
abbrev Time := Int

/-- Source: `const NumTerminals int = 2`. -/
def NumTerminals : Nat := 2

/-- Source: `const TerminalOne string = "T1"`. -/
def TerminalOne : String := "T1"

/-- Source: `const TerminalTwo string = "T2"`. -/
def TerminalTwo : String := "T2"

/-- Source: `var Terminals []string`, the slice of `TerminalOne` and `TerminalTwo`. -/
def Terminals : List String := [TerminalOne, TerminalTwo]

/-- Source: `type TerminalSecurityRecord struct`. -/
structure TerminalSecurityRecord where
  Terminal : String
  TimeStamp : Time
  WaitLen : Int
  deriving DecidableEq, Repr

/-- How a computation stops without a result: a run-time panic (nil pointer
dereference, index out of range), `log.Fatalln` ending the process, or `main`
returning. -/
inductive Stop where
  | nilDereference
  | indexOutOfRange
  | fatal
  | returned
  deriving DecidableEq, Repr

/-- Source: `func getMinuteValue(text string) string`. -/
def getMinuteValue (text : String) : String :=
  let removedMin := ReplaceAll text "min" ""
  let removedEquals := ReplaceAll removedMin "=" ""
  let removedSpaces := ReplaceAll removedEquals " " ""
  removedSpaces

/-- The loop `for i, val := range rawText` of `createTerminalRecords`, from
index `i` with the records built so far.  `Terminals[i]` is evaluated in both
branches (as an argument of `log.Printf` when the conversion fails) and panics
when `i` is out of range. -/
def createTerminalRecordsLoop (intSize : Nat) (timestamp : Time) :
    List String → Nat → List TerminalSecurityRecord →
      Except Stop (List TerminalSecurityRecord)
  | [], _, records => .ok records
  | val :: rest, i, records =>
    match Atoi intSize (getMinuteValue val) with
    | none =>
      match Terminals[i]? with
      | none => .error .indexOutOfRange
      | some _ => .ok []
    | some intVal =>
      match Terminals[i]? with
      | none => .error .indexOutOfRange
      | some terminal =>
        createTerminalRecordsLoop intSize timestamp rest (i + 1)
          (records ++ [{ Terminal := terminal, TimeStamp := timestamp, WaitLen := intVal }])

/-- Source: `func createTerminalRecords(rawText []string, timestamp time.Time)
[]TerminalSecurityRecord`. -/
def createTerminalRecords (intSize : Nat) (rawText : List String) (timestamp : Time) :
    Except Stop (List TerminalSecurityRecord) :=
  createTerminalRecordsLoop intSize timestamp rawText 0 []

/-! ## `golang.org/x/net/html`: the document tree -/

/-- The type `html.NodeType`. -/
inductive NodeType where
  | ErrorNode
  | TextNode
  | DocumentNode
  | ElementNode
  | CommentNode
  | DoctypeNode
  | RawNode
  deriving DecidableEq, Repr

/-- The type `html.Attribute`. -/
structure Attribute where
  Namespace : String
  Key : String
  Val : String
  deriving DecidableEq, Repr

/-- The type `html.Node`, with the fields the program reads.  `children` is the chain
that starts at `FirstChild` and follows `NextSibling`.  A `*html.Node` that
the program walks along `NextSibling` is modelled by the list made of the node
pointed to followed by its later siblings; `nil` is the empty list. -/
inductive Node where
  | mk (nodeType : NodeType) (Data : String) (Attr : List Attribute) (children : List Node)

namespace Node

/-- The field `n.Type`. -/
def nodeType : Node → NodeType
  | mk t _ _ _ => t

/-- The field `n.Data`. -/
def Data : Node → String
  | mk _ d _ _ => d

/-- The field `n.Attr`. -/
def Attr : Node → List Attribute
  | mk _ _ a _ => a

/-- The chain of children, from `n.FirstChild` along `NextSibling`. -/
def children : Node → List Node
  | mk _ _ _ cs => cs

end Node

/-- The test of lines 47-53 of `getSecurityTimesNode`: an element named `div`
one of whose attributes has the value `sec-times`. -/
def isSecurityTimesDiv (n : Node) : Bool :=
  (n.nodeType = NodeType.ElementNode && n.Data = "div") && n.Attr.any (fun a => a.Val = "sec-times")

mutual
/-- Source: `func getSecurityTimesNode(n *html.Node) *html.Node`, on a non-nil
`n` (the guard `n == nil` is the empty case of the loop below); `none` is a
`nil` result. -/
def getSecurityTimesNode : Node → Option Node
  | .mk t d a cs =>
    if isSecurityTimesDiv (.mk t d a cs) then some (.mk t d a cs)
    else getSecurityTimesNodeLoop cs
/-- The loop `for c := n.FirstChild; c != nil; c = c.NextSibling` of
`getSecurityTimesNode`. -/
def getSecurityTimesNodeLoop : List Node → Option Node
  | [] => none
  | c :: siblings =>
    match getSecurityTimesNode c with
    | some node => some node
    | none => getSecurityTimesNodeLoop siblings
end

mutual
/-- Source: `func getStrongTagNode(n *html.Node) *html.Node`, on a non-nil `n`
(the guard `n == nil` is the empty case of the loop below). -/
def getStrongTagNode : Node → Option Node
  | .mk t d a cs =>
    if t = NodeType.ElementNode ∧ d = "strong" then some (.mk t d a cs)
    else getStrongTagNodeLoop cs
/-- The loop over the children in `getStrongTagNode`. -/
def getStrongTagNodeLoop : List Node → Option Node
  | [] => none
  | c :: siblings =>
    match getStrongTagNode c with
    | some node => some node
    | none => getStrongTagNodeLoop siblings
end

/-- The loop `for c := n.NextSibling; c != nil; c = c.NextSibling` of
`getRawText`, from sibling `c` on, with the fragments collected so far.
`render` is `renderNode`, the serialisation of a node by `html.Render`. -/
def getRawTextLoop (render : Node → String) : List Node → List String → List String
  | [], rawText => rawText
  | c :: siblings, rawText =>
    match getStrongTagNode c with
    | none => getRawTextLoop render siblings rawText
    | some result =>
      match result.children with
      | [] => getRawTextLoop render siblings rawText
      | textNode :: _ =>
        getRawTextLoop render siblings (rawText ++ [TrimSpace (render textNode)])

/-- Source: `func getRawText(n *html.Node) []string`.  The argument is the node
pointed to with its later siblings; on `nil` (the empty list) the evaluation
of `n.NextSibling` panics. -/
def getRawText (render : Node → String) : List Node → Except Stop (List String)
  | [] => .error .nilDereference
  | _ :: siblings => .ok (getRawTextLoop render siblings [])

/-- Lines 247-251 of `main`: the check of the number of harvested fragments
(`log.Fatalln` when it is not 2) followed by `createTerminalRecords`. -/
def mainRecords (intSize : Nat) (rawText : List String) (timestamp : Time) :
    Except Stop (List TerminalSecurityRecord) :=
  if rawText.length ≠ 2 then .error .fatal
  else createTerminalRecords intSize rawText timestamp

/-- Lines 233-251 of `main`: one poll cycle from the parsed document `doc` to
the records.  When no marker is found `main` returns; `n = n.FirstChild` is
the chain of children of the marker, passed to `getRawText` even when it is
`nil`. -/
def mainCycle (intSize : Nat) (render : Node → String) (doc : Node) (timestamp : Time) :
    Except Stop (List TerminalSecurityRecord) :=
  match getSecurityTimesNode doc with
  | none => .error .returned
  | some n =>
    match getRawText render n.children with
    | .error e => .error e
    | .ok rawText => mainRecords intSize rawText timestamp

mutual
/-- The nodes of a tree in pre-order (document order): the node, then the
nodes of its children from the first to the last. -/
def preorder : Node → List Node
  | .mk t d a cs => .mk t d a cs :: preorderList cs
/-- The nodes of a chain of siblings in document order. -/
def preorderList : List Node → List Node
  | [] => []
  | c :: siblings => preorder c ++ preorderList siblings
end

/-! ## Vocabulary of the specification -/

/-- A run of `k` space characters. -/
def spaces (k : Nat) : List Char := List.replicate k ' '

/-- The fragments of the shape `[=]? N word`: `a` spaces, the character `=`
when `eq` is set, `b` spaces, the decimal digits of `N`, `c` spaces, `word`
and `d` spaces. -/
def fragment (eq : Bool) (a b c d N : Nat) (word : String) : String :=
  ⟨spaces a ++ (if eq then ['='] else []) ++ spaces b ++ Nat.toDigits 10 N ++ spaces c
    ++ word.data ++ spaces d⟩

/-- The marker test in the words of the specification: an element node having
some attribute whose value equals `sec-times`, whatever the element's name. -/
def isSecurityTimesElement (n : Node) : Bool :=
  n.nodeType = NodeType.ElementNode && n.Attr.any (fun a => a.Val = "sec-times")

/-- A text node. -/
def textOf (s : String) : Node := .mk .TextNode s [] []

/-- An element `<strong>` holding the text `s`. -/
def strongOf (s : String) : Node := .mk .ElementNode "strong" [] [textOf s]

/-- An element `<p>` with the given children. -/
def paragraphOf (cs : List Node) : Node := .mk .ElementNode "p" [] cs

/-- The element `<span class="sec-times"></span>`. -/
def spanMarker : Node := .mk .ElementNode "span" [⟨"", "class", "sec-times"⟩] []

/-- The element `<div class="sec-times">` with the given children. -/
def divMarker (cs : List Node) : Node := .mk .ElementNode "div" [⟨"", "class", "sec-times"⟩] cs

/-- The tree `html.Parse` builds for a page whose body is `content`. -/
def pageOf (content : List Node) : Node :=
  .mk .DocumentNode "" []
    [.mk .ElementNode "html" [] [.mk .ElementNode "head" [] [], .mk .ElementNode "body" [] content]]

/-- A chain of three siblings, `<p><strong>= 5 min</strong></p><p></p>
<p><strong>= 12 min</strong></p>`: the first and the third hold a `strong`
element with a text first child, the second does not. -/
def threeSiblings : List Node :=
  [paragraphOf [strongOf "= 5 min"], paragraphOf [], paragraphOf [strongOf "= 12 min"]]

/-! ## Lemmas on the library functions -/

theorem replaceScan_single (x : Char) (s : List Char) :
    replaceScan [x] [] 0 s = s.filter (fun c => c ≠ x) := by
  induction s with
  | nil => simp [replaceScan]
  | cons c s ih =>
    by_cases h : x = c
    · subst h
      simp [replaceScan, List.isPrefixOf, ih]
    · have h2 : ¬ c = x := fun e => h e.symm
      simp [replaceScan, List.isPrefixOf, ih, h, h2]

theorem replaceScan_min_skip (pre rest : List Char) (h : 'm' ∉ pre) :
    replaceScan ['m', 'i', 'n'] [] 0 (pre ++ rest)
      = pre ++ replaceScan ['m', 'i', 'n'] [] 0 rest := by
  induction pre with
  | nil => simp
  | cons c pre ih =>
    have hc : ¬ 'm' = c := fun e => h (e ▸ List.mem_cons_self _ _)
    have hp : 'm' ∉ pre := fun e => h (List.mem_cons_of_mem _ e)
    simp [replaceScan, List.isPrefixOf, hc, ih hp]

theorem replaceScan_min_match (rest : List Char) :
    replaceScan ['m', 'i', 'n'] [] 0 ('m' :: 'i' :: 'n' :: rest)
      = replaceScan ['m', 'i', 'n'] [] 0 rest := by
  simp [replaceScan, List.isPrefixOf]

theorem replaceScan_min_none (s : List Char) (h : 'm' ∉ s) :
    replaceScan ['m', 'i', 'n'] [] 0 s = s := by
  have := replaceScan_min_skip s [] h
  simpa [replaceScan] using this

theorem ReplaceAll_min (s : String) :
    ReplaceAll s "min" "" = ⟨replaceScan ['m', 'i', 'n'] [] 0 s.data⟩ := by
  have h1 : ¬ ("min" : String) = "" := by decide
  have h2 : ¬ ("min" : String).data = [] := by decide
  simp only [ReplaceAll, h1, h2, if_false]

theorem ReplaceAll_eq (s : String) :
    ReplaceAll s "=" "" = ⟨s.data.filter (fun c => c ≠ '=')⟩ := by
  have h1 : ¬ ("=" : String) = "" := by decide
  have h2 : ¬ ("=" : String).data = [] := by decide
  simp only [ReplaceAll, h1, h2, if_false]
  exact congrArg String.mk (replaceScan_single '=' s.data)

theorem ReplaceAll_space (s : String) :
    ReplaceAll s " " "" = ⟨s.data.filter (fun c => c ≠ ' ')⟩ := by
  have h1 : ¬ (" " : String) = "" := by decide
  have h2 : ¬ (" " : String).data = [] := by decide
  simp only [ReplaceAll, h1, h2, if_false]
  exact congrArg String.mk (replaceScan_single ' ' s.data)

theorem getMinuteValue_data (text : String) :
    (getMinuteValue text).data
      = ((replaceScan ['m', 'i', 'n'] [] 0 text.data).filter (fun c => c ≠ '=')).filter
          (fun c => c ≠ ' ') := by
  simp [getMinuteValue, ReplaceAll_min, ReplaceAll_eq, ReplaceAll_space]

/-! ## Decimal digits -/

theorem digitChar_isDecimalDigit (m : Nat) (h : m < 10) :
    isDecimalDigit (Nat.digitChar m) = true ∧ (Nat.digitChar m).toNat - 48 = m := by
  interval_cases m <;> decide

theorem toDigitsCore_all (fuel : Nat) :
    ∀ (n : Nat) (ds : List Char), (∀ c ∈ ds, isDecimalDigit c = true) →
      ∀ c ∈ Nat.toDigitsCore 10 fuel n ds, isDecimalDigit c = true := by
  induction fuel with
  | zero => intro n ds h c hc; exact h c (by simpa [Nat.toDigitsCore] using hc)
  | succ fuel ih =>
    intro n ds h c hc
    have hd : isDecimalDigit (Nat.digitChar (n % 10)) = true :=
      (digitChar_isDecimalDigit (n % 10) (Nat.mod_lt _ (by decide))).1
    have hds : ∀ c ∈ Nat.digitChar (n % 10) :: ds, isDecimalDigit c = true := by
      intro c hc
      rcases List.mem_cons.1 hc with e | e
      · exact e ▸ hd
      · exact h c e
    simp only [Nat.toDigitsCore] at hc
    split at hc
    · exact hds c hc
    · exact ih _ _ hds c hc

theorem toDigitsCore_value (fuel : Nat) :
    ∀ (n : Nat) (ds : List Char), n < fuel →
      List.foldl (fun n ch => n * 10 + (ch.toNat - 48)) 0 (Nat.toDigitsCore 10 fuel n ds)
        = List.foldl (fun n ch => n * 10 + (ch.toNat - 48)) n ds := by
  induction fuel with
  | zero => intro n ds h; exact absurd h (Nat.not_lt_zero _)
  | succ fuel ih =>
    intro n ds h
    have hd : (Nat.digitChar (n % 10)).toNat - 48 = n % 10 :=
      (digitChar_isDecimalDigit (n % 10) (Nat.mod_lt _ (by decide))).2
    simp only [Nat.toDigitsCore]
    split
    · rename_i h0
      have hn : n % 10 = n := by omega
      rw [List.foldl_cons, Nat.zero_mul, Nat.zero_add, hd, hn]
    · rename_i h0
      have hlt : n / 10 < fuel := by omega
      rw [ih _ _ hlt]
      have hn : n / 10 * 10 + n % 10 = n := by omega
      rw [List.foldl_cons, hd, hn]

theorem toDigitsCore_ne_nil (fuel n : Nat) (ds : List Char) :
    Nat.toDigitsCore 10 (fuel + 1) n ds ≠ [] := by
  induction fuel generalizing n ds with
  | zero =>
    simp only [Nat.toDigitsCore]
    split <;> simp [Nat.toDigitsCore]
  | succ fuel ih =>
    rw [Nat.toDigitsCore]
    split
    · simp
    · exact ih _ _

theorem toDigits_all (N : Nat) : ∀ c ∈ Nat.toDigits 10 N, isDecimalDigit c = true :=
  toDigitsCore_all (N + 1) N [] (by simp)

theorem toDigits_value (N : Nat) : digitsValue (Nat.toDigits 10 N) = N := by
  have := toDigitsCore_value (N + 1) N [] (Nat.lt_succ_self N)
  simpa [digitsValue, Nat.toDigits] using this

theorem toDigits_ne_nil (N : Nat) : Nat.toDigits 10 N ≠ [] :=
  toDigitsCore_ne_nil N N []

theorem isDecimalDigit_bounds {c : Char} (h : isDecimalDigit c = true) :
    48 ≤ c.toNat ∧ c.toNat ≤ 57 := by
  simpa [isDecimalDigit] using h

theorem parseDecimal_toDigits (N : Nat) : parseDecimal (Nat.toDigits 10 N) = some N := by
  have hne := toDigits_ne_nil N
  have hall : (Nat.toDigits 10 N).all isDecimalDigit = true :=
    List.all_eq_true.2 (toDigits_all N)
  cases hd : Nat.toDigits 10 N with
  | nil => exact absurd hd hne
  | cons c rest =>
    rw [hd] at hall
    simp only [parseDecimal, hall, if_true]
    rw [← hd, toDigits_value]

/-- Go `strconv.Atoi` on the decimal digits of `N` gives `N` when `N` fits. -/
theorem Atoi_toDigits (intSize N : Nat) (h : N < 2 ^ (intSize - 1)) :
    Atoi intSize ⟨Nat.toDigits 10 N⟩ = some (N : Int) := by
  have hne := toDigits_ne_nil N
  have hp := parseDecimal_toDigits N
  cases hd : Nat.toDigits 10 N with
  | nil => exact absurd hd hne
  | cons c rest =>
    have hc : isDecimalDigit c = true := toDigits_all N c (by simp [hd])
    have hb := isDecimalDigit_bounds hc
    have h1 : ¬ c = '+' := by intro e; rw [e] at hb; revert hb; decide
    have h2 : ¬ c = '-' := by intro e; rw [e] at hb; revert hb; decide
    rw [hd] at hp
    simp [Atoi, h1, h2, hp, h]

/-- Go `strconv.Atoi` fails on a string that contains a character other than a
sign in first position and decimal digits. -/
theorem Atoi_none_of_letter (intSize : Nat) (ds tail : List Char) (x : Char)
    (hx : isDecimalDigit x = false) (hds : ds ≠ []) :
    Atoi intSize ⟨ds ++ x :: tail⟩ = none := by
  cases ds with
  | nil => exact absurd rfl hds
  | cons c rest =>
    have hA : (rest ++ x :: tail).all isDecimalDigit = false := by
      simp [List.all_append, hx]
    have hB : (c :: (rest ++ x :: tail)).all isDecimalDigit = false := by
      simp [List.all_append, hx]
    have pA : parseDecimal (rest ++ x :: tail) = none := by
      cases hr : rest ++ x :: tail with
      | nil => rfl
      | cons y ys =>
        rw [hr] at hA
        simp [parseDecimal, hA]
    have pB : parseDecimal (c :: (rest ++ x :: tail)) = none := by
      simp only [parseDecimal, hB]
      simp
    simp only [Atoi, List.cons_append]
    split_ifs <;> simp [pA, pB]

/-! ## The normaliser on the fragments `[=]? N min[s]?` -/

theorem not_mem_spaces {x : Char} (k : Nat) (h : x ≠ ' ') : x ∉ spaces k := by
  intro hm
  exact h (List.eq_of_mem_replicate hm)

theorem not_mem_toDigits {x : Char} (N : Nat) (h : isDecimalDigit x = false) :
    x ∉ Nat.toDigits 10 N := by
  intro hm
  have := toDigits_all N x hm
  rw [h] at this
  exact Bool.noConfusion this

theorem filter_keep (x : Char) (l : List Char) (h : x ∉ l) :
    l.filter (fun c => c ≠ x) = l := by
  apply List.filter_eq_self.2
  intro a ha
  have : a ≠ x := fun e => h (e ▸ ha)
  simpa using this

theorem filter_spaces (k : Nat) : (spaces k).filter (fun c => c ≠ ' ') = [] := by
  apply List.filter_eq_nil_iff.2
  intro a ha
  have : a = ' ' := List.eq_of_mem_replicate ha
  simp [this]

/-- The part of a fragment before its word contains no `m`. -/
theorem not_mem_head (eq : Bool) (a b c N : Nat) :
    'm' ∉ spaces a ++ (if eq then ['='] else []) ++ spaces b ++ Nat.toDigits 10 N ++ spaces c := by
  have hs : ∀ k, 'm' ∉ spaces k := fun k => not_mem_spaces k (by decide)
  have hd : 'm' ∉ Nat.toDigits 10 N := not_mem_toDigits N (by decide)
  have he : 'm' ∉ (if eq then ['='] else []) := by cases eq <;> decide
  simp only [List.mem_append, not_or]
  exact ⟨⟨⟨⟨hs a, he⟩, hs b⟩, hd⟩, hs c⟩

/-- What is left of the part of a fragment before its word, followed by `tail`,
once `=` and the spaces are removed. -/
theorem filter_head (eq : Bool) (a b c N : Nat) (tail : List Char) :
    ((spaces a ++ (if eq then ['='] else []) ++ spaces b ++ Nat.toDigits 10 N ++ spaces c
        ++ tail).filter (fun c => c ≠ '=')).filter (fun c => c ≠ ' ')
      = Nat.toDigits 10 N
        ++ (tail.filter (fun c => c ≠ '=')).filter (fun c => c ≠ ' ') := by
  have hs : ∀ k, (spaces k).filter (fun c => c ≠ '=') = spaces k :=
    fun k => filter_keep '=' _ (not_mem_spaces k (by decide))
  have hd1 : (Nat.toDigits 10 N).filter (fun c => c ≠ '=') = Nat.toDigits 10 N :=
    filter_keep '=' _ (not_mem_toDigits N (by decide))
  have hd2 : (Nat.toDigits 10 N).filter (fun c => c ≠ ' ') = Nat.toDigits 10 N :=
    filter_keep ' ' _ (not_mem_toDigits N (by decide))
  have he : (if eq then ['='] else []).filter (fun c => c ≠ '=') = [] := by
    cases eq <;> decide
  simp only [List.filter_append, hs, hd1, hd2, he, filter_spaces, List.append_nil,
    List.nil_append]

theorem getMinuteValue_min (eq : Bool) (a b c d N : Nat) :
    getMinuteValue (fragment eq a b c d N "min") = ⟨Nat.toDigits 10 N⟩ := by
  apply String.ext
  have hw : ("min" : String).data = ['m', 'i', 'n'] := by decide
  rw [getMinuteValue_data]
  simp only [fragment, hw]
  rw [List.append_assoc _ ['m', 'i', 'n'] (spaces d),
    replaceScan_min_skip _ _ (not_mem_head eq a b c N)]
  simp only [List.cons_append, List.nil_append]
  rw [replaceScan_min_match, replaceScan_min_none _ (not_mem_spaces d (by decide)), filter_head,
    filter_keep '=' _ (not_mem_spaces d (by decide)), filter_spaces, List.append_nil]

theorem getMinuteValue_mins (eq : Bool) (a b c d N : Nat) :
    getMinuteValue (fragment eq a b c d N "mins") = ⟨Nat.toDigits 10 N ++ ['s']⟩ := by
  apply String.ext
  have hw : ("mins" : String).data = ['m', 'i', 'n', 's'] := by decide
  have hs : 'm' ∉ 's' :: spaces d := by
    intro hm
    rcases List.mem_cons.1 hm with e | e
    · exact absurd e (by decide)
    · exact not_mem_spaces d (by decide) e
  have hf : (('s' :: spaces d).filter (fun c => c ≠ '=')).filter (fun c => c ≠ ' ') = ['s'] := by
    have h1 : ('s' :: spaces d).filter (fun c => c ≠ '=') = 's' :: spaces d := by
      apply filter_keep
      intro hm
      rcases List.mem_cons.1 hm with e | e
      · exact absurd e (by decide)
      · exact not_mem_spaces d (by decide) e
    have h2 : ('s' :: spaces d).filter (fun c => c ≠ ' ')
        = 's' :: (spaces d).filter (fun c => c ≠ ' ') := by
      rw [List.filter_cons_of_pos]
      decide
    rw [h1, h2, filter_spaces]
  rw [getMinuteValue_data]
  simp only [fragment, hw]
  rw [List.append_assoc _ ['m', 'i', 'n', 's'] (spaces d),
    replaceScan_min_skip _ _ (not_mem_head eq a b c N)]
  simp only [List.cons_append, List.nil_append]
  rw [replaceScan_min_match, replaceScan_min_none _ hs, filter_head, hf]

/-! ## The record builder -/

theorem Atoi_nonneg (intSize : Nat) (s : String) (v : Int)
    (h : Atoi intSize s = some v) (hs : s.data.head? ≠ some '-') : 0 ≤ v := by
  unfold Atoi at h
  cases hd : s.data with
  | nil => simp [hd] at h
  | cons c rest =>
    have hc : ¬ c = '-' := by
      intro e
      apply hs
      simp [hd, e]
    rw [hd] at h
    simp only [hc, or_false, if_false] at h
    cases hp : parseDecimal (if c = '+' then rest else c :: rest) with
    | none => simp [hp] at h
    | some un =>
      rw [hp] at h
      by_cases hlt : un < 2 ^ (intSize - 1)
      · simp only [hlt, if_true, Option.some.injEq] at h
        rw [← h]
        exact Int.ofNat_nonneg un
      · simp [hlt] at h

theorem createTerminalRecordsLoop_nonneg (intSize : Nat) (t : Time) (rawText : List String) :
    ∀ (i : Nat) (acc recs : List TerminalSecurityRecord),
      (∀ f ∈ rawText, (getMinuteValue f).data.head? ≠ some '-') →
      (∀ r ∈ acc, 0 ≤ r.WaitLen) →
      createTerminalRecordsLoop intSize t rawText i acc = .ok recs →
      ∀ r ∈ recs, 0 ≤ r.WaitLen := by
  induction rawText with
  | nil =>
    intro i acc recs _ hacc h
    simp only [createTerminalRecordsLoop] at h
    cases h
    exact hacc
  | cons val rest ih =>
    intro i acc recs hf hacc h
    simp only [createTerminalRecordsLoop] at h
    cases hv : Atoi intSize (getMinuteValue val) with
    | none =>
      rw [hv] at h
      cases ht : Terminals[i]? with
      | none => simp [ht] at h
      | some term =>
        simp only [ht] at h
        cases h
        intro r hr
        cases hr
    | some v =>
      rw [hv] at h
      cases ht : Terminals[i]? with
      | none => simp [ht] at h
      | some term =>
        simp only [ht] at h
        have hv0 : 0 ≤ v := Atoi_nonneg intSize _ v hv (hf val (List.mem_cons_self _ _))
        refine ih (i + 1) _ recs (fun f hfm => hf f (List.mem_cons_of_mem _ hfm)) ?_ h
        intro r hr
        rcases List.mem_append.1 hr with hr | hr
        · exact hacc r hr
        · have : r = ⟨term, t, v⟩ := by simpa using hr
          rw [this]
          exact hv0

/-- The result of `createTerminalRecords` on at most two fragments, by the
outcome of the conversion of each. -/
theorem createTerminalRecords_two (intSize : Nat) (t : Time) (f0 f1 : String) :
    createTerminalRecords intSize [f0, f1] t =
      match Atoi intSize (getMinuteValue f0), Atoi intSize (getMinuteValue f1) with
      | some v0, some v1 => .ok [⟨"T1", t, v0⟩, ⟨"T2", t, v1⟩]
      | _, _ => .ok [] := by
  cases h0 : Atoi intSize (getMinuteValue f0) <;> cases h1 : Atoi intSize (getMinuteValue f1) <;>
    simp [createTerminalRecords, createTerminalRecordsLoop, h0, h1, Terminals, TerminalOne,
      TerminalTwo]

theorem createTerminalRecords_one (intSize : Nat) (t : Time) (f0 : String) :
    createTerminalRecords intSize [f0] t =
      match Atoi intSize (getMinuteValue f0) with
      | some v0 => .ok [⟨"T1", t, v0⟩]
      | none => .ok [] := by
  cases h0 : Atoi intSize (getMinuteValue f0) <;>
    simp [createTerminalRecords, createTerminalRecordsLoop, h0, Terminals, TerminalOne]

/-- With three fragments or more, of which the first two convert, the loop
reaches index 2 and `Terminals[2]` panics. -/
theorem createTerminalRecords_three (intSize : Nat) (t : Time) (f0 f1 f2 : String)
    (rest : List String) (v0 v1 : Int)
    (h0 : Atoi intSize (getMinuteValue f0) = some v0)
    (h1 : Atoi intSize (getMinuteValue f1) = some v1) :
    createTerminalRecords intSize (f0 :: f1 :: f2 :: rest) t = .error .indexOutOfRange := by
  cases h2 : Atoi intSize (getMinuteValue f2) <;>
    simp [createTerminalRecords, createTerminalRecordsLoop, h0, h1, h2, Terminals]

theorem createTerminalRecords_bad_head (intSize : Nat) (t : Time) (f0 : String)
    (rest : List String) (h0 : Atoi intSize (getMinuteValue f0) = none) :
    createTerminalRecords intSize (f0 :: rest) t = .ok [] := by
  simp [createTerminalRecords, createTerminalRecordsLoop, h0, Terminals]

theorem createTerminalRecords_bad_second (intSize : Nat) (t : Time) (f0 f1 : String)
    (rest : List String) (v0 : Int) (h0 : Atoi intSize (getMinuteValue f0) = some v0)
    (h1 : Atoi intSize (getMinuteValue f1) = none) :
    createTerminalRecords intSize (f0 :: f1 :: rest) t = .ok [] := by
  simp [createTerminalRecords, createTerminalRecordsLoop, h0, h1, Terminals]

/-- When `createTerminalRecords` returns the empty list. -/
theorem createTerminalRecords_eq_nil_iff (intSize : Nat) (t : Time) (rawText : List String) :
    createTerminalRecords intSize rawText t = .ok [] ↔
      rawText = [] ∨ ∃ f ∈ rawText.take 2, Atoi intSize (getMinuteValue f) = none := by
  match rawText with
  | [] => simp [createTerminalRecords, createTerminalRecordsLoop]
  | [f0] =>
    rw [createTerminalRecords_one]
    cases h0 : Atoi intSize (getMinuteValue f0) <;> simp [h0]
  | [f0, f1] =>
    rw [createTerminalRecords_two]
    cases h0 : Atoi intSize (getMinuteValue f0) <;>
      cases h1 : Atoi intSize (getMinuteValue f1) <;> simp [h0, h1]
  | f0 :: f1 :: f2 :: rest =>
    cases h0 : Atoi intSize (getMinuteValue f0) with
    | none =>
      rw [createTerminalRecords_bad_head _ _ _ _ h0]
      simp [h0]
    | some v0 =>
      cases h1 : Atoi intSize (getMinuteValue f1) with
      | none =>
        rw [createTerminalRecords_bad_second _ _ _ _ _ _ h0 h1]
        simp [h1]
      | some v1 =>
        rw [createTerminalRecords_three _ _ _ _ _ _ _ _ h0 h1]
        simp [h0, h1]

/-! ## The marker locator -/

mutual
theorem getSecurityTimesNode_find :
    ∀ n : Node, getSecurityTimesNode n = (preorder n).find? isSecurityTimesDiv
  | .mk t d a cs => by
    rw [getSecurityTimesNode, preorder, List.find?_cons]
    cases h : isSecurityTimesDiv (.mk t d a cs)
    · simp [getSecurityTimesNodeLoop_find cs]
    · simp
theorem getSecurityTimesNodeLoop_find :
    ∀ l : List Node,
      getSecurityTimesNodeLoop l = (preorderList l).find? isSecurityTimesDiv
  | [] => by simp [getSecurityTimesNodeLoop, preorderList]
  | c :: cs => by
    rw [getSecurityTimesNodeLoop, preorderList, List.find?_append,
      getSecurityTimesNode_find c, getSecurityTimesNodeLoop_find cs]
    cases (preorder c).find? isSecurityTimesDiv <;> simp
end

theorem isSecurityTimesDiv_iff (n : Node) :
    isSecurityTimesDiv n = true ↔
      n.nodeType = NodeType.ElementNode ∧ n.Data = "div" ∧ ∃ a ∈ n.Attr, a.Val = "sec-times" := by
  simp [isSecurityTimesDiv, and_assoc]

/-! ## The claims -/

/-- C1: on every fragment `= N mins` (the character `=`, the decimal digits of
`N` and the word `mins`, with any spacing) `getMinuteValue` leaves the letter
`s` of `mins` behind the digits, so the integer parse of
`createTerminalRecords` fails instead of yielding `N`; so it is for
`"= 5 mins"`, which normalises to `"5s"`. -/
theorem getMinuteValue_mins_not_integer (intSize a b c d N : Nat) :
    getMinuteValue (fragment true a b c d N "mins") = ⟨Nat.toDigits 10 N ++ ['s']⟩
      ∧ Atoi intSize (getMinuteValue (fragment true a b c d N "mins")) = none
      ∧ fragment true 0 1 1 0 5 "mins" = "= 5 mins"
      ∧ getMinuteValue "= 5 mins" = "5s" := by
  refine ⟨getMinuteValue_mins true a b c d N, ?_, by decide, by decide⟩
  rw [getMinuteValue_mins]
  exact Atoi_none_of_letter intSize _ [] 's' (by decide) (toDigits_ne_nil N)

/-- C2: for every timestamp `t` and every harvested sequence as long as the
terminal list whose fragments normalise to the integers `vs`,
`createTerminalRecords` returns one record per terminal, in the order of the
terminal list: record `i` has terminal `Terminals[i]`, timestamp `t` and wait
value `vs[i]`. -/
theorem createTerminalRecords_complete (intSize : Nat) (t : Time) (rawText : List String)
    (vs : List Int) (hlen : rawText.length = Terminals.length)
    (hv : rawText.map (fun f => Atoi intSize (getMinuteValue f)) = vs.map some) :
    createTerminalRecords intSize rawText t
      = .ok (List.zipWith (fun terminal v => (⟨terminal, t, v⟩ : TerminalSecurityRecord))
          Terminals vs) := by
  rcases rawText with _ | ⟨f0, _ | ⟨f1, _ | ⟨f2, rest⟩⟩⟩ <;> simp [Terminals] at hlen
  rcases vs with _ | ⟨v0, _ | ⟨v1, _ | ⟨v2, more⟩⟩⟩ <;> simp at hv
  rw [createTerminalRecords_two, hv.1, hv.2]
  rfl

/-- An instance of C2: the fragments `= 5 min` and `= 12 min`. -/
theorem createTerminalRecords_complete_witness :
    createTerminalRecords 64 ["= 5 min", "= 12 min"] 7
      = .ok [⟨"T1", 7, 5⟩, ⟨"T2", 7, 12⟩] :=
  createTerminalRecords_complete 64 7 ["= 5 min", "= 12 min"] [5, 12] rfl rfl

/-- C3: for every timestamp and every harvested sequence no longer than the
terminal list in which some fragment, at any position, does not normalise to an
integer, `createTerminalRecords` returns the empty list of records. -/
theorem createTerminalRecords_all_or_nothing (intSize : Nat) (t : Time)
    (rawText : List String) (hlen : rawText.length ≤ Terminals.length)
    (hbad : ∃ f ∈ rawText, Atoi intSize (getMinuteValue f) = none) :
    createTerminalRecords intSize rawText t = .ok [] := by
  apply (createTerminalRecords_eq_nil_iff intSize t rawText).2
  right
  have htake : rawText.take 2 = rawText := List.take_of_length_le hlen
  rw [htake]
  exact hbad

/-- An instance of C3: the second fragment holds no integer. -/
theorem createTerminalRecords_all_or_nothing_witness :
    createTerminalRecords 64 ["= 5 min", "= twelve min"] 7 = .ok [] :=
  createTerminalRecords_all_or_nothing 64 7 ["= 5 min", "= twelve min"] (by decide)
    ⟨"= twelve min", by decide, by decide⟩

/-- C4, as stated, fails: on the one-fragment sequence `["= 5 min"]`, whose
length is not that of the terminal list, `createTerminalRecords` returns one
record. -/
theorem createTerminalRecords_short_not_empty :
    ["= 5 min"].length ≠ Terminals.length
      ∧ createTerminalRecords 64 ["= 5 min"] 7 = .ok [⟨"T1", 7, 5⟩] :=
  ⟨by decide, rfl⟩

/-- C4, amended: for every timestamp and every harvested sequence whose length
differs from that of the terminal list, the count check of `main` ends the run
(`log.Fatalln`) before `createTerminalRecords` is called, so no record is
produced; `createTerminalRecords` itself checks no length and returns the empty
list exactly when the sequence is empty or one of its first two fragments does
not normalise. -/
theorem mainRecords_length_check (intSize : Nat) (t : Time) (rawText : List String)
    (hlen : rawText.length ≠ Terminals.length) :
    mainRecords intSize rawText t = .error .fatal
      ∧ (createTerminalRecords intSize rawText t = .ok [] ↔
          rawText = [] ∨ ∃ f ∈ rawText.take 2, Atoi intSize (getMinuteValue f) = none) := by
  refine ⟨?_, createTerminalRecords_eq_nil_iff intSize t rawText⟩
  have h2 : rawText.length ≠ 2 := hlen
  simp [mainRecords, h2]

/-- An instance of C4, amended: three fragments. -/
theorem mainRecords_length_check_witness :
    ["= 5 min", "= 12 min", "= 7 min"].length ≠ Terminals.length
      ∧ mainRecords 64 ["= 5 min", "= 12 min", "= 7 min"] 7 = .error .fatal :=
  ⟨by decide, (mainRecords_length_check 64 7 ["= 5 min", "= 12 min", "= 7 min"] (by decide)).1⟩

/-- C5, as stated, fails: in the page whose body is `<span class="sec-times">`
the first element node in pre-order with an attribute of value `sec-times` is
the `span`, and `getSecurityTimesNode` returns no node. -/
theorem getSecurityTimesNode_ignores_span :
    (preorder (pageOf [spanMarker])).find? isSecurityTimesElement = some spanMarker
      ∧ getSecurityTimesNode (pageOf [spanMarker]) = none :=
  ⟨rfl, rfl⟩

/-- C5, amended: for every document tree `getSecurityTimesNode` returns the
first node in pre-order that is an element node named `div` having some
attribute whose value equals `sec-times` (no node before it in pre-order is
one), and returns no node exactly when the tree contains no such `div`. -/
theorem getSecurityTimesNode_first_div (root : Node) :
    (∀ n, getSecurityTimesNode root = some n →
        isSecurityTimesDiv n = true ∧
          ∃ before after, preorder root = before ++ n :: after
            ∧ ∀ m ∈ before, isSecurityTimesDiv m = false)
      ∧ (getSecurityTimesNode root = none ↔ ∀ m ∈ preorder root, isSecurityTimesDiv m = false) := by
  rw [getSecurityTimesNode_find]
  constructor
  · intro n h
    obtain ⟨hn, before, after, hsplit, hbefore⟩ := List.find?_eq_some.1 h
    exact ⟨hn, before, after, hsplit, fun m hm => by simpa using hbefore m hm⟩
  · simp

/-- An instance of C5, amended: a `span` marker before the `div` marker. -/
theorem getSecurityTimesNode_first_div_witness :
    isSecurityTimesDiv (divMarker []) = true ∧
      ∃ before after, preorder (pageOf [spanMarker, divMarker []]) = before ++ divMarker [] :: after
        ∧ ∀ m ∈ before, isSecurityTimesDiv m = false :=
  (getSecurityTimesNode_first_div (pageOf [spanMarker, divMarker []])).1 (divMarker []) rfl

/-- C6: on the chain `threeSiblings`, whose siblings at positions 0 and 2 (and
only they) hold a `strong` element with a text first child, `getRawText`
started at position 0 returns one fragment, the trimmed text of position 2: the
loop starts at `n.NextSibling` and never looks at the starting node. -/
theorem getRawText_skips_first_sibling (render : Node → String) :
    threeSiblings.map (fun c => (getStrongTagNode c).map Node.children)
        = [some [textOf "= 5 min"], none, some [textOf "= 12 min"]]
      ∧ getRawText render threeSiblings = .ok [TrimSpace (render (textOf "= 12 min"))] :=
  ⟨rfl, rfl⟩

/-- C7, as stated, fails: the fragment `"-5 min"` normalises to `-5` and the
record built from it has a negative wait value. -/
theorem createTerminalRecords_negative_wait :
    createTerminalRecords 64 ["-5 min", "= 12 min"] 7 = .ok [⟨"T1", 7, -5⟩, ⟨"T2", 7, 12⟩]
      ∧ (⟨"T1", 7, -5⟩ : TerminalSecurityRecord).WaitLen < 0 :=
  ⟨rfl, by decide⟩

/-- C7, amended: for every timestamp and every harvested sequence none of whose
fragments is left by `getMinuteValue` with a leading minus sign, every record
returned by `createTerminalRecords` has a non-negative wait value. -/
theorem createTerminalRecords_nonneg (intSize : Nat) (t : Time) (rawText : List String)
    (recs : List TerminalSecurityRecord)
    (hsign : ∀ f ∈ rawText, (getMinuteValue f).data.head? ≠ some '-')
    (h : createTerminalRecords intSize rawText t = .ok recs) :
    ∀ r ∈ recs, 0 ≤ r.WaitLen :=
  createTerminalRecordsLoop_nonneg intSize t rawText 0 [] recs hsign
    (fun _ hr => nomatch hr) h

/-- An instance of C7, amended: the fragments `= 0 min` and `+12 min`. -/
theorem createTerminalRecords_nonneg_witness :
    createTerminalRecords 64 ["= 0 min", "+12 min"] 7 = .ok [⟨"T1", 7, 0⟩, ⟨"T2", 7, 12⟩]
      ∧ 0 ≤ (⟨"T2", 7, 12⟩ : TerminalSecurityRecord).WaitLen :=
  ⟨rfl, createTerminalRecords_nonneg 64 7 ["= 0 min", "+12 min"]
    [⟨"T1", 7, 0⟩, ⟨"T2", 7, 12⟩] (by decide) rfl ⟨"T2", 7, 12⟩ (by decide)⟩

/-- C8: on the page whose marker `<div class="sec-times">` has no children the
harvest step does not yield the empty sequence: `getRawText` applied to the
absent first child dereferences `nil` (`n.NextSibling`) and the cycle of `main`
ends in that panic. -/
theorem getRawText_nil_panics (intSize : Nat) (render : Node → String) (t : Time) :
    getSecurityTimesNode (pageOf [divMarker []]) = some (divMarker [])
      ∧ (divMarker []).children = []
      ∧ getRawText render (divMarker []).children = .error .nilDereference
      ∧ mainCycle intSize render (pageOf [divMarker []]) t = .error .nilDereference :=
  ⟨rfl, rfl, rfl, rfl⟩

/-- C9: for every document tree `getSecurityTimesNode` returns the first node
in pre-order that is an element named `div` with some attribute whose value
equals `sec-times`, whatever the attribute's name; it returns nil exactly when
the tree has no such `div`, and a node it returns is a node of the tree (the
root or a descendant of the root). -/
theorem getSecurityTimesNode_spec (root : Node) :
    getSecurityTimesNode root = (preorder root).find? isSecurityTimesDiv
      ∧ (getSecurityTimesNode root = none ↔
          ¬ ∃ m ∈ preorder root, m.nodeType = NodeType.ElementNode ∧ m.Data = "div"
            ∧ ∃ a ∈ m.Attr, a.Val = "sec-times")
      ∧ (∀ n, getSecurityTimesNode root = some n →
          n ∈ preorder root ∧ n.nodeType = NodeType.ElementNode ∧ n.Data = "div"
            ∧ ∃ a ∈ n.Attr, a.Val = "sec-times") := by
  refine ⟨getSecurityTimesNode_find root, ?_, ?_⟩
  · rw [getSecurityTimesNode_find, List.find?_eq_none]
    constructor
    · rintro h ⟨m, hm, hdiv⟩
      exact h m hm ((isSecurityTimesDiv_iff m).2 hdiv)
    · intro h m hm hdiv
      exact h ⟨m, hm, (isSecurityTimesDiv_iff m).1 hdiv⟩
  · intro n h
    rw [getSecurityTimesNode_find] at h
    exact ⟨List.mem_of_find?_eq_some h, (isSecurityTimesDiv_iff n).1 (List.find?_some h)⟩

/-- An instance of C9: the marker value carried by an attribute `id`. -/
theorem getSecurityTimesNode_spec_witness :
    (.mk .ElementNode "div" [⟨"", "id", "sec-times"⟩] [] : Node)
        ∈ preorder (pageOf [paragraphOf [], .mk .ElementNode "div" [⟨"", "id", "sec-times"⟩] []]) :=
  ((getSecurityTimesNode_spec
    (pageOf [paragraphOf [], .mk .ElementNode "div" [⟨"", "id", "sec-times"⟩] []])).2.2
      (.mk .ElementNode "div" [⟨"", "id", "sec-times"⟩] []) rfl).1

/-- C10: for every natural number `N` and every fragment made of an optional
`=`, the decimal digits of `N` and the word `min`, with any number of spaces
before, between and after them, `getMinuteValue` returns the decimal digits of
`N`, and the integer parse of `createTerminalRecords` yields `N` when `N` is in
the range of the machine integer. -/
theorem getMinuteValue_min_parses (eq : Bool) (a b c d N : Nat) :
    getMinuteValue (fragment eq a b c d N "min") = ⟨Nat.toDigits 10 N⟩
      ∧ ∀ intSize : Nat, N < 2 ^ (intSize - 1) →
          Atoi intSize (getMinuteValue (fragment eq a b c d N "min")) = some (N : Int) := by
  refine ⟨getMinuteValue_min eq a b c d N, fun intSize h => ?_⟩
  rw [getMinuteValue_min]
  exact Atoi_toDigits intSize N h

/-- An instance of C10: the fragment `12 min` without `=`. -/
theorem getMinuteValue_min_parses_witness :
    fragment false 2 0 1 3 12 "min" = "  12 min   "
      ∧ Atoi 64 (getMinuteValue (fragment false 2 0 1 3 12 "min")) = some 12 :=
  ⟨by decide, (getMinuteValue_min_parses false 2 0 1 3 12).2 64 (by decide)⟩

end DepartureTime
